import Mathlib

set_option autoImplicit false

/-!
Verification of the chunked-upload client in `src/vg_control/data/uploader.py`.

Shallow embedding conventions:
* byte strings are `List Nat`;
* wall-clock sleeps are recorded as the list of delay values passed to
  `time.sleep`;
* the behaviour of one transfer attempt of one chunk (the pre-signed-URL
  request followed by the curl subprocess) is an `AttemptResult` drawn from an
  environment oracle, since the network is external to the program;
* SHA-256 (`hashlib`, external library) is an opaque function parameter;
* curl's progress fractions are modelled with exact natural-number arithmetic
  in place of Python floats (the values at stake are small integers).
-/

namespace Uploader

/-- Python `str.lower` on one character (the header names at stake are
    ASCII). -/
def lowerChar (c : Char) : Char :=
  if 'A' ≤ c ∧ c ≤ 'Z' then Char.ofNat (c.toNat + 32) else c

/-- Whether `pat` is a leading segment of `l`. -/
def beginsWith : List Char → List Char → Bool
  | [], _ => true
  | _ :: _, [] => false
  | a :: as, b :: bs => (a = b) && beginsWith as bs

/-- Python `s.split(sep)` for a one-character separator. -/
def splitOnChar (sep : Char) : List Char → List (List Char)
  | [] => [[]]
  | c :: cs =>
    match splitOnChar sep cs with
    | [] => [[c]]
    | h :: t => if c = sep then [] :: h :: t else (c :: h) :: t

/-- ASCII whitespace, as Python `str.strip()` removes it. -/
def isSpaceChar (c : Char) : Bool :=
  c.toNat = 32 || c.toNat = 9 || c.toNat = 10 || c.toNat = 13
    || c.toNat = 11 || c.toNat = 12

/-- Python `.strip()` (ASCII whitespace from both ends). -/
def trimAscii (l : List Char) : List Char :=
  ((l.dropWhile isSpaceChar).reverse.dropWhile isSpaceChar).reverse

/-- Python `line.split(":", 1)[1]`: everything after the first colon
    (empty when the line has no colon). -/
def afterFirstColon (l : List Char) : List Char :=
  (l.dropWhile (fun c => c ≠ ':')).drop 1

/-- Python `.strip('"')`: remove every leading and trailing double-quote
    character. -/
def stripQuotes (l : List Char) : List Char :=
  ((l.dropWhile (fun c => c = Char.ofNat 34)).reverse.dropWhile
      (fun c => c = Char.ofNat 34)).reverse

/-- ETag extraction of `upload_single_chunk`: scan the dumped response headers
    line by line, take the first line whose lowercased form starts with
    "etag:", keep what follows the first colon, trim whitespace, strip double
    quotes.  Empty string when no such line exists. -/
def findEtag (stdoutContent : String) : String :=
  match (splitOnChar (Char.ofNat 10) stdoutContent.data).find?
      (fun l => beginsWith ['e', 't', 'a', 'g', ':'] (l.map lowerChar)) with
  | some l => String.mk (stripQuotes (trimAscii (afterFirstColon l)))
  | none => ""

/-- Observable behaviour of one attempt for one chunk: either the
    `get_multipart_chunk_upload_url` call raises, or curl runs and yields its
    stderr progress lines, its exit code, and the dumped headers on stdout. -/
inductive AttemptResult where
  | urlError (msg : String)
  | curlRun (stderrLines : List String) (exitCode : Nat) (stdoutContent : String)

/-- Result of one attempt as `upload_single_chunk` classifies it: an ETag, or
    an exception message (URL-request failure, curl failure, missing ETag). -/
inductive AttemptOutcome where
  | ok (etag : String)
  | fail (cause : String)
deriving DecidableEq

/-- One iteration of the retry loop body of `upload_single_chunk`, up to the
    `return etag`: URL fetch, curl, exit-code check, ETag extraction. -/
def runAttempt : AttemptResult → AttemptOutcome
  | .urlError msg => .fail msg
  | .curlRun stderrLines code stdoutContent =>
    if code ≠ 0 then
      .fail ("Curl failed with code " ++ toString code ++ ": "
        ++ String.join stderrLines)
    else
      let etag := findEtag stdoutContent
      if etag = "" then .fail "No ETag found in response headers" else .ok etag

/-- Whether an attempt ends in the `except` handler of the retry loop. -/
def attemptFails (a : AttemptResult) : Bool :=
  match runAttempt a with
  | .fail _ => true
  | .ok _ => false

/-- Number of `#` characters in a curl `-#` progress line. -/
def countHash (l : String) : Nat := l.data.countP (fun c => c = '#')

/-- Bytes represented by a progress line of `cnt` hash marks: the bar is 50
    characters wide, so `percent = min (2 * cnt) 100`, and the byte count is
    `chunk_size * percent / 100` clamped to the chunk size. -/
def progressBytes (chunkSize cnt : Nat) : Nat :=
  min (chunkSize * min (2 * cnt) 100 / 100) chunkSize

/-- The stderr-parsing loop of one attempt: `last` is
    `last_progress_update`; a snapshot (its `bytes_uploaded` value) is emitted
    only when the parsed byte count strictly grows. -/
def emissionsFromLines (before chunkSize : Nat) :
    List String → Nat → List Nat
  | [], _ => []
  | l :: ls, last =>
    if 0 < countHash l then
      let cur := progressBytes chunkSize (countHash l)
      if last < cur then
        (before + cur) :: emissionsFromLines before chunkSize ls cur
      else emissionsFromLines before chunkSize ls last
    else emissionsFromLines before chunkSize ls last

/-- Progress snapshots (their `bytes_uploaded` values) emitted while one
    attempt runs; a failed URL request runs no curl and emits nothing. -/
def attemptEmissions (before chunkSize : Nat) : AttemptResult → List Nat
  | .urlError _ => []
  | .curlRun stderrLines _ _ => emissionsFromLines before chunkSize stderrLines 0

/-- Message printed when the last attempt of a chunk fails. -/
def chunkFailLog (chunkNumber maxRetries : Nat) (cause : String) : String :=
  "Failed to upload chunk " ++ toString chunkNumber ++ " after "
    ++ toString maxRetries ++ " retries: " ++ cause

/-- Message of the exception raised when the last attempt of a chunk fails. -/
def chunkFailRaise (cause : String) : String :=
  "Chunk upload failed: " ++ cause

/-- Result of `upload_single_chunk`: `etag` on success, `failed` with the
    printed diagnostic and the raised exception message, or `pyNone` for the
    Python fall-through `return None` (reachable only with zero attempts). -/
inductive ChunkOutcome where
  | etag (e : String)
  | failed (logMsg raisedMsg : String)
  | pyNone
deriving DecidableEq

/-- Trace of one `upload_single_chunk` call. -/
structure ChunkResult where
  outcome : ChunkOutcome
  delays : List Nat
  emissions : List Nat
  hashesSent : List String
  attemptsMade : Nat
deriving DecidableEq

/-- The retry loop of `upload_single_chunk` over the list of remaining
    attempt behaviours; `retry` is the current 0-based attempt index.  Every
    iteration first submits `chunkHash` with the URL request; a failure on the
    last attempt (`retry = maxRetries - 1`) raises, any earlier failure sleeps
    `2 ^ retry` and retries. -/
def chunkLoop (chunkHash : String) (chunkNumber maxRetries chunkSize before : Nat) :
    List AttemptResult → Nat → ChunkResult
  | [], _ =>
    { outcome := .pyNone, delays := [], emissions := [],
      hashesSent := [], attemptsMade := 0 }
  | a :: rest, retry =>
    let ems := attemptEmissions before chunkSize a
    match runAttempt a with
    | .ok e =>
      { outcome := .etag e, delays := [], emissions := ems,
        hashesSent := [chunkHash], attemptsMade := 1 }
    | .fail cause =>
      if retry = maxRetries - 1 then
        { outcome := .failed (chunkFailLog chunkNumber maxRetries cause)
            (chunkFailRaise cause),
          delays := [], emissions := ems,
          hashesSent := [chunkHash], attemptsMade := 1 }
      else
        let r := chunkLoop chunkHash chunkNumber maxRetries chunkSize before
          rest (retry + 1)
        { outcome := r.outcome, delays := 2 ^ retry :: r.delays,
          emissions := ems ++ r.emissions,
          hashesSent := chunkHash :: r.hashesSent,
          attemptsMade := r.attemptsMade + 1 }

/-- `upload_single_chunk`: the chunk hash is computed once, from the chunk
    bytes, before the first attempt; attempt behaviours are drawn from
    `attempts` by 0-based retry index. -/
def uploadSingleChunk (hashFn : List Nat → String)
    (attempts : Nat → AttemptResult) (chunkData : List Nat)
    (chunkNumber maxRetries before : Nat) : ChunkResult :=
  chunkLoop (hashFn chunkData) chunkNumber maxRetries chunkData.length before
    ((List.range maxRetries).map attempts) 0

/-- Parsed JSON body of the `complete` response.  `success` and `verified` are
    read with `.get(..., default)`, `message` with `.get("message", "Unknown
    error")`; `game_control_id` and `object_key` are accessed unconditionally
    (the service contract always returns them), so they are plain fields. -/
structure CompleteResponse where
  success : Option Bool
  message : Option String
  game_control_id : String
  object_key : String
  verified : Option Bool
deriving DecidableEq

/-- Environment of one `upload_archive` call after a successful init: the
    archive bytes, the server-chosen chunk policy, the hash function, the
    per-chunk per-retry attempt behaviours, and the behaviour of the
    `complete` and `abort` calls. -/
structure SessionEnv where
  file : List Nat
  totalChunks : Nat
  chunkSize : Nat
  hashFn : List Nat → String
  chunkAttempts : Nat → Nat → AttemptResult
  completeStatus : Nat
  completeResponse : CompleteResponse
  abortOk : Bool

/-- File position (also `bytes_uploaded`) when chunk `n` is about to be read:
    the reads are sequential, so it is `(n-1) * chunk_size` clamped to the
    file length. -/
def chunkPos (env : SessionEnv) (n : Nat) : Nat :=
  min ((n - 1) * env.chunkSize) env.file.length

/-- The bytes `f.read(chunk_size_bytes)` returns for chunk `n`. -/
def chunkData (env : SessionEnv) (n : Nat) : List Nat :=
  (env.file.drop (chunkPos env n)).take env.chunkSize

/-- The `upload_single_chunk` call `upload_archive` makes for chunk `n`
    (`max_retries` is left at its default, 5). -/
def chunkResult (env : SessionEnv) (n : Nat) : ChunkResult :=
  uploadSingleChunk env.hashFn (env.chunkAttempts n) (chunkData env n) n 5
    (chunkPos env n)

/-- Whether chunk `n` would be uploaded without exhausting its retries. -/
def chunkOk (env : SessionEnv) (n : Nat) : Bool :=
  match (chunkResult env n).outcome with
  | .failed _ _ => false
  | _ => true

/-- Number of nonempty chunks the byte source yields. -/
def numFileChunks (env : SessionEnv) : Nat :=
  if env.chunkSize = 0 then 0
  else (env.file.length + env.chunkSize - 1) / env.chunkSize

/-- Number of chunks the loop can process: the server's advisory count,
    cut off where the byte source is exhausted. -/
def plannedChunks (env : SessionEnv) : Nat :=
  min env.totalChunks (numFileChunks env)

/-- Trace of the chunk loop of `upload_archive`. -/
structure LoopResult where
  attempted : List Nat
  records : List (Nat × Option String)
  emissions : List Nat
  err : Option String
deriving DecidableEq

/-- The chunk loop of `upload_archive`: for each remaining chunk number, read
    the next window of the file (an empty read breaks the loop), upload it
    with `upload_single_chunk`, append the `{chunk_number, etag}` record, emit
    one snapshot with the new `bytes_uploaded`, and continue; a chunk failure
    re-raises immediately. -/
def archiveLoop (env : SessionEnv) : List Nat → Nat → LoopResult
  | [], _ => { attempted := [], records := [], emissions := [], err := none }
  | n :: rest, pos =>
    let data := (env.file.drop pos).take env.chunkSize
    if data = [] then
      { attempted := [], records := [], emissions := [], err := none }
    else
      let r := uploadSingleChunk env.hashFn (env.chunkAttempts n) data n 5 pos
      match r.outcome with
      | .failed _ raisedMsg =>
        { attempted := [n], records := [], emissions := r.emissions,
          err := some raisedMsg }
      | .etag e =>
        let res := archiveLoop env rest (pos + data.length)
        { attempted := n :: res.attempted,
          records := (n, some e) :: res.records,
          emissions := r.emissions ++ (pos + data.length) :: res.emissions,
          err := res.err }
      | .pyNone =>
        let res := archiveLoop env rest (pos + data.length)
        { attempted := n :: res.attempted,
          records := (n, none) :: res.records,
          emissions := r.emissions ++ (pos + data.length) :: res.emissions,
          err := res.err }

/-- `requests.Response.raise_for_status`: raises exactly on 4xx and 5xx. -/
def raiseForStatus (status : Nat) : Bool :=
  decide (400 ≤ status ∧ status < 600)

/-- Final outcome of `upload_archive`: the propagated exception message, or
    the reported identifiers (`verified` read with `.get("verified", False)`). -/
inductive ArchiveOutcome where
  | ok (game_control_id object_key : String) (verified : Bool)
  | err (msg : String)
deriving DecidableEq

/-- Trace of one `upload_archive` call (after a successful init). -/
structure ArchiveResult where
  attempted : List Nat
  records : List (Nat × Option String)
  emissions : List Nat
  completeCalled : Bool
  abortCalls : Nat
  abortWarned : Bool
  outcome : ArchiveOutcome
deriving DecidableEq

/-- Completion and cleanup of `upload_archive` after the chunk loop: when the
    loop raised, `complete` is never called and the `finally` block aborts;
    otherwise `complete` is called with the collected records, its HTTP status
    is checked, then `completion_result.get("success", True)` decides between
    reporting success and raising (which again reaches the abort in
    `finally`).  A failing abort only sets a warning. -/
def completionStep (env : SessionEnv) (lr : LoopResult) : ArchiveResult :=
  match lr.err with
  | some e =>
    { attempted := lr.attempted, records := lr.records,
      emissions := lr.emissions, completeCalled := false,
      abortCalls := 1, abortWarned := !env.abortOk, outcome := .err e }
  | none =>
    if raiseForStatus env.completeStatus then
      { attempted := lr.attempted, records := lr.records,
        emissions := lr.emissions, completeCalled := true,
        abortCalls := 1, abortWarned := !env.abortOk,
        outcome := .err ("HTTP error " ++ toString env.completeStatus) }
    else if (env.completeResponse.success).getD true then
      { attempted := lr.attempted, records := lr.records,
        emissions := lr.emissions, completeCalled := true,
        abortCalls := 0, abortWarned := false,
        outcome := .ok env.completeResponse.game_control_id
          env.completeResponse.object_key
          ((env.completeResponse.verified).getD false) }
    else
      { attempted := lr.attempted, records := lr.records,
        emissions := lr.emissions, completeCalled := true,
        abortCalls := 1, abortWarned := !env.abortOk,
        outcome := .err ("Upload failed after all attempts: "
          ++ (env.completeResponse.message).getD "Unknown error") }

/-- `upload_archive` after a successful init: chunks `1 .. total_chunks`, then
    completion and cleanup. -/
def uploadArchive (env : SessionEnv) : ArchiveResult :=
  completionStep env (archiveLoop env (List.range' 1 env.totalChunks) 0)

/-- Every chunk's first attempt succeeds (no retry is ever entered). -/
def firstAttemptOk (env : SessionEnv) : Prop :=
  ∀ n : Nat, attemptFails (env.chunkAttempts n 0) = false

/-- `speed_bps` of `emit_upload_progress`. -/
def speedBps (bytesUploaded : Nat) (elapsed : ℚ) : ℚ :=
  if 0 < elapsed then (bytesUploaded : ℚ) / elapsed else 0

/-- The snapshot value `emit_upload_progress` builds (Python floats are
    modelled as rationals; `elapsed` stands for `time.time() - start_time`). -/
structure ProgressData where
  bytes_uploaded : ℚ
  total_bytes : ℚ
  percent : ℚ
  speed_mbps : ℚ
  eta_seconds : ℚ
  current_chunk : ℚ
  total_chunks : ℚ

/-- `emit_upload_progress`, up to the `progress_data` dictionary. -/
def emitUploadProgress (bytesUploaded : Nat) (elapsed : ℚ)
    (totalBytes currentChunk totalChunks : Nat) : ProgressData :=
  let s := speedBps bytesUploaded elapsed
  { bytes_uploaded := bytesUploaded
    total_bytes := totalBytes
    percent :=
      if 0 < totalBytes then min ((bytesUploaded : ℚ) / totalBytes * 100) 100
      else 0
    speed_mbps := if 0 < s then s / (1024 * 1024) else 0
    eta_seconds := if 0 < s then ((totalBytes : ℚ) - bytesUploaded) / s else 0
    current_chunk := currentChunk
    total_chunks := totalChunks }

/-- The JSON object `emit_upload_progress` serialises: key/value pairs in the
    order of the `progress_data` dictionary literal. -/
def progressJson (p : ProgressData) : List (String × ℚ) :=
  [("bytes_uploaded", p.bytes_uploaded), ("total_bytes", p.total_bytes),
   ("percent", p.percent), ("speed_mbps", p.speed_mbps),
   ("eta_seconds", p.eta_seconds), ("current_chunk", p.current_chunk),
   ("total_chunks", p.total_chunks)]

/-- A transfer attempt whose response carries no ETag header: curl exits 0
    but the dumped headers yield an empty ETag. -/
def attemptMissingEtag (a : AttemptResult) : Bool :=
  match a with
  | .urlError _ => false
  | .curlRun _ code out => code = 0 && findEtag out = ""

/-! ### Concrete environments used by witnesses and counterexamples -/

def hashLen : List Nat → String := fun l => toString l.length

def attemptsAllFail : Nat → AttemptResult := fun _ => .urlError "boom"

def attemptsNoEtagThenOk : Nat → AttemptResult := fun r =>
  if r = 0 then .curlRun [] 0 "HTTP/1.1 200 OK\nServer: x"
  else .curlRun [] 0 "ETag: \"xyz\"\nServer: x"

/-- A session whose chunks all succeed on their first attempt: a 10-byte file
    in chunks of 4 (so chunk sizes 4, 4, 2). -/
def goodEnv : SessionEnv :=
  { file := [1, 2, 3, 4, 5, 6, 7, 8, 9, 10]
    totalChunks := 3
    chunkSize := 4
    hashFn := hashLen
    chunkAttempts := fun _ _ => .curlRun ["#"] 0 "etag: e1"
    completeStatus := 200
    completeResponse := { success := some true, message := none,
                          game_control_id := "g", object_key := "k",
                          verified := some true }
    abortOk := true }

/-- A session whose single chunk reaches 90 percent on attempt 0, fails, then
    finishes on attempt 1: the retried attempt re-emits from the chunk
    start. -/
def envRetryRegress : SessionEnv :=
  { file := List.replicate 100 7
    totalChunks := 1
    chunkSize := 100
    hashFn := hashLen
    chunkAttempts := fun _ r =>
      if r = 0 then
        .curlRun ["#############################################"] 7 ""
      else .curlRun ["#"] 0 "etag: abc"
    completeStatus := 200
    completeResponse := { success := some true, message := none,
                          game_control_id := "g", object_key := "k",
                          verified := some true }
    abortOk := true }

/-- A trivial session (zero chunks) whose `complete` response is HTTP 200 with
    `success = false`. -/
def envCompleteFalse : SessionEnv :=
  { file := []
    totalChunks := 0
    chunkSize := 1
    hashFn := hashLen
    chunkAttempts := fun _ _ => .urlError "unused"
    completeStatus := 200
    completeResponse := { success := some false, message := some "bad",
                          game_control_id := "g", object_key := "k",
                          verified := some false }
    abortOk := true }

/-- A trivial session (zero chunks) whose `complete` response is HTTP 200 with
    no `success` field at all. -/
def envCompleteNoField : SessionEnv :=
  { file := []
    totalChunks := 0
    chunkSize := 1
    hashFn := hashLen
    chunkAttempts := fun _ _ => .urlError "unused"
    completeStatus := 200
    completeResponse := { success := none, message := none,
                          game_control_id := "g", object_key := "k",
                          verified := none }
    abortOk := true }

/-! ### Properties of the per-chunk retry loop -/

theorem attemptFails_iff {a : AttemptResult} :
    attemptFails a = true ↔ ∃ c, runAttempt a = .fail c := by
  unfold attemptFails
  cases h : runAttempt a <;> simp

theorem attemptFails_of_fail {a : AttemptResult} {c : String}
    (h : runAttempt a = .fail c) : attemptFails a = true := by
  unfold attemptFails
  rw [h]

theorem attemptOk_of_not_fails {a : AttemptResult}
    (h : attemptFails a = false) : ∃ e, runAttempt a = .ok e := by
  unfold attemptFails at h
  cases hr : runAttempt a
  · exact ⟨_, rfl⟩
  · rw [hr] at h
    simp at h

theorem chunkLoop_cons_ok (hs : String) (n m sz b : Nat)
    {a : AttemptResult} (rest : List AttemptResult) (retry : Nat) {e : String}
    (h : runAttempt a = .ok e) :
    chunkLoop hs n m sz b (a :: rest) retry =
      { outcome := .etag e, delays := [],
        emissions := attemptEmissions b sz a,
        hashesSent := [hs], attemptsMade := 1 } := by
  simp [chunkLoop, h]

theorem chunkLoop_cons_fail_last (hs : String) (n m sz b : Nat)
    {a : AttemptResult} (rest : List AttemptResult) {retry : Nat} {c : String}
    (h : runAttempt a = .fail c) (hr : retry = m - 1) :
    chunkLoop hs n m sz b (a :: rest) retry =
      { outcome := .failed (chunkFailLog n m c) (chunkFailRaise c),
        delays := [], emissions := attemptEmissions b sz a,
        hashesSent := [hs], attemptsMade := 1 } := by
  simp [chunkLoop, h, hr]

theorem chunkLoop_cons_fail_retry (hs : String) (n m sz b : Nat)
    {a : AttemptResult} (rest : List AttemptResult) {retry : Nat} {c : String}
    (h : runAttempt a = .fail c) (hr : ¬ retry = m - 1) :
    chunkLoop hs n m sz b (a :: rest) retry =
      { outcome := (chunkLoop hs n m sz b rest (retry + 1)).outcome,
        delays := 2 ^ retry :: (chunkLoop hs n m sz b rest (retry + 1)).delays,
        emissions := attemptEmissions b sz a
          ++ (chunkLoop hs n m sz b rest (retry + 1)).emissions,
        hashesSent := hs :: (chunkLoop hs n m sz b rest (retry + 1)).hashesSent,
        attemptsMade :=
          (chunkLoop hs n m sz b rest (retry + 1)).attemptsMade + 1 } := by
  simp [chunkLoop, h, hr]

theorem chunkLoop_attempts_le (hs : String) (n m sz b : Nat) :
    ∀ (l : List AttemptResult) (retry : Nat),
      (chunkLoop hs n m sz b l retry).attemptsMade ≤ l.length := by
  intro l
  induction l with
  | nil => intro retry; simp [chunkLoop]
  | cons a rest ih =>
    intro retry
    cases hra : runAttempt a with
    | ok e => rw [chunkLoop_cons_ok hs n m sz b rest retry hra]; simp
    | fail c =>
      by_cases hr : retry = m - 1
      · rw [chunkLoop_cons_fail_last hs n m sz b rest hra hr]; simp
      · rw [chunkLoop_cons_fail_retry hs n m sz b rest hra hr]
        exact Nat.succ_le_succ (ih (retry + 1))

theorem chunkLoop_hashes (hs : String) (n m sz b : Nat) :
    ∀ (l : List AttemptResult) (retry : Nat),
      (chunkLoop hs n m sz b l retry).hashesSent =
        List.replicate (chunkLoop hs n m sz b l retry).attemptsMade hs := by
  intro l
  induction l with
  | nil => intro retry; simp [chunkLoop]
  | cons a rest ih =>
    intro retry
    cases hra : runAttempt a with
    | ok e => rw [chunkLoop_cons_ok hs n m sz b rest retry hra]; rfl
    | fail c =>
      by_cases hr : retry = m - 1
      · rw [chunkLoop_cons_fail_last hs n m sz b rest hra hr]; rfl
      · rw [chunkLoop_cons_fail_retry hs n m sz b rest hra hr]
        show hs :: (chunkLoop hs n m sz b rest (retry + 1)).hashesSent
          = List.replicate
              ((chunkLoop hs n m sz b rest (retry + 1)).attemptsMade + 1) hs
        rw [ih (retry + 1), List.replicate_succ]

theorem chunkLoop_ok_after (hs : String) (n m sz b : Nat)
    (attempts : Nat → AttemptResult) (e : String) :
    ∀ (k j : Nat), j + k < m →
      (∀ i, j ≤ i → i < j + k → attemptFails (attempts i) = true) →
      runAttempt (attempts (j + k)) = .ok e →
      (chunkLoop hs n m sz b ((List.range' j (m - j)).map attempts) j).outcome
          = .etag e ∧
      (chunkLoop hs n m sz b ((List.range' j (m - j)).map attempts) j).delays
          = (List.range' j k).map (fun i => 2 ^ i) ∧
      (chunkLoop hs n m sz b
          ((List.range' j (m - j)).map attempts) j).attemptsMade = k + 1 := by
  intro k
  induction k with
  | zero =>
    intro j hjk _ hok
    have hm1 : m - j = (m - j - 1) + 1 := by omega
    rw [Nat.add_zero] at hok
    rw [hm1, List.range'_succ, List.map_cons,
      chunkLoop_cons_ok hs n m sz b _ j hok]
    simp
  | succ k ih =>
    intro j hjk hfail hok
    have hfj : attemptFails (attempts j) = true :=
      hfail j le_rfl (by omega)
    obtain ⟨c, hc⟩ := attemptFails_iff.mp hfj
    have hm1 : m - j = (m - (j + 1)) + 1 := by omega
    have hne : ¬ j = m - 1 := by omega
    rw [hm1, List.range'_succ, List.map_cons,
      chunkLoop_cons_fail_retry hs n m sz b _ hc hne]
    have ihj := ih (j + 1) (by omega)
      (fun i h1 h2 => hfail i (by omega) (by omega))
      (by rw [show j + 1 + k = j + (k + 1) by omega]; exact hok)
    refine ⟨ihj.1, ?_, by simp only []; rw [ihj.2.2]⟩
    simp only []
    rw [ihj.2.1, List.range'_succ, List.map_cons]

theorem chunkLoop_all_fail (hs : String) (n m sz b : Nat)
    (attempts : Nat → AttemptResult) (c : String) :
    ∀ (k j : Nat), j + k + 1 = m →
      (∀ i, j ≤ i → i < m → attemptFails (attempts i) = true) →
      runAttempt (attempts (m - 1)) = .fail c →
      (chunkLoop hs n m sz b ((List.range' j (m - j)).map attempts) j).outcome
          = .failed (chunkFailLog n m c) (chunkFailRaise c) ∧
      (chunkLoop hs n m sz b ((List.range' j (m - j)).map attempts) j).delays
          = (List.range' j k).map (fun i => 2 ^ i) ∧
      (chunkLoop hs n m sz b
          ((List.range' j (m - j)).map attempts) j).attemptsMade = k + 1 := by
  intro k
  induction k with
  | zero =>
    intro j hjm _ hlast
    have hj : j = m - 1 := by omega
    have hm1 : m - j = 1 := by omega
    rw [hm1, List.range'_one, List.map_cons, List.map_nil]
    simp only [chunkLoop]
    rw [← hj] at hlast
    rw [hlast]
    simp [hj]
  | succ k ih =>
    intro j hjm hfail hlast
    have hfj : attemptFails (attempts j) = true :=
      hfail j le_rfl (by omega)
    obtain ⟨c', hc'⟩ := attemptFails_iff.mp hfj
    have hm1 : m - j = (m - (j + 1)) + 1 := by omega
    rw [hm1, List.range'_succ, List.map_cons]
    simp only [chunkLoop]
    rw [hc']
    have hne : ¬ j = m - 1 := by omega
    simp only [hne, if_false]
    have ihj := ih (j + 1) (by omega)
      (fun i h1 h2 => hfail i (by omega) h2) hlast
    refine ⟨ihj.1, ?_, by rw [ihj.2.2]⟩
    rw [ihj.2.1, List.range'_succ, List.map_cons]

theorem chunkLoop_ne_pyNone (hs : String) (n m sz b : Nat) :
    ∀ (l : List AttemptResult) (j : Nat), l.length + j = m → l ≠ [] →
      (chunkLoop hs n m sz b l j).outcome ≠ .pyNone := by
  intro l
  induction l with
  | nil => intro j _ hne; exact absurd rfl hne
  | cons a rest ih =>
    intro j hlen _
    simp only [chunkLoop]
    cases runAttempt a with
    | ok e => simp
    | fail c =>
      by_cases hr : j = m - 1 <;> simp only [hr, if_true, if_false]
      · simp
      · cases rest with
        | nil => simp at hlen; omega
        | cons b' t =>
          simpa using ih (j + 1) (by simp at hlen ⊢; omega) (by simp)

theorem uploadSingleChunk_ne_pyNone (hashFn : List Nat → String)
    (attempts : Nat → AttemptResult) (data : List Nat)
    (n m before : Nat) (hm : 0 < m) :
    (uploadSingleChunk hashFn attempts data n m before).outcome ≠ .pyNone := by
  unfold uploadSingleChunk
  exact chunkLoop_ne_pyNone _ n m _ before _ 0 (by simp) (by simp; omega)

/-- C2: for every chunk, `upload_single_chunk` makes at most `max_retries`
    attempts; when all `m` attempts fail it makes exactly `m` attempts,
    sleeping `2 ^ attempt` after each failed attempt but the last (so delays
    `1, 2, 4, 8` for the default `max_retries = 5`), and the final failure
    surfaces as the diagnostic line naming the chunk number and the attempt
    count and a raised exception carrying the underlying cause. -/
theorem chunk_retry_bounded_backoff_final_error
    (hashFn : List Nat → String) (attempts : Nat → AttemptResult)
    (data : List Nat) (n m before : Nat) (c : String)
    (hm : 0 < m)
    (hfail : ∀ i, i < m → attemptFails (attempts i) = true)
    (hlast : runAttempt (attempts (m - 1)) = .fail c) :
    (uploadSingleChunk hashFn attempts data n m before).attemptsMade = m ∧
    (uploadSingleChunk hashFn attempts data n m before).delays
      = (List.range (m - 1)).map (fun i => 2 ^ i) ∧
    (uploadSingleChunk hashFn attempts data n m before).outcome
      = .failed (chunkFailLog n m c) (chunkFailRaise c) ∧
    chunkFailLog n m c
      = "Failed to upload chunk " ++ toString n ++ " after " ++ toString m
          ++ " retries: " ++ c ∧
    chunkFailRaise c = "Chunk upload failed: " ++ c ∧
    (∀ (attempts2 : Nat → AttemptResult) (data2 : List Nat),
      (uploadSingleChunk hashFn attempts2 data2 n m before).attemptsMade
        ≤ m) := by
  have key := chunkLoop_all_fail (hashFn data) n m data.length before attempts c
    (m - 1) 0 (by omega) (fun i _ h2 => hfail i h2) hlast
  rw [Nat.sub_zero, ← List.range_eq_range'] at key
  unfold uploadSingleChunk
  refine ⟨?_, key.2.1.trans (by rw [List.range_eq_range']), key.1, rfl, rfl, ?_⟩
  · rw [key.2.2]; omega
  · intro attempts2 data2
    calc (chunkLoop (hashFn data2) n m data2.length before
            ((List.range m).map attempts2) 0).attemptsMade
        ≤ ((List.range m).map attempts2).length := chunkLoop_attempts_le _ _ _ _ _ _ _
      _ = m := by simp

/-- Witness for C2: with every attempt failing and the default
    `max_retries = 5`, chunk 3 makes 5 attempts, sleeps `1, 2, 4, 8`, and
    fails with the diagnostic and exception built from the last cause. -/
theorem chunk_retry_bounded_backoff_final_error_witness :
    (uploadSingleChunk hashLen attemptsAllFail [1, 2, 3] 3 5 0).attemptsMade
        = 5 ∧
    (uploadSingleChunk hashLen attemptsAllFail [1, 2, 3] 3 5 0).delays
        = [1, 2, 4, 8] ∧
    (uploadSingleChunk hashLen attemptsAllFail [1, 2, 3] 3 5 0).outcome
        = .failed "Failed to upload chunk 3 after 5 retries: boom"
            "Chunk upload failed: boom" := by
  have h := chunk_retry_bounded_backoff_final_error hashLen attemptsAllFail
    [1, 2, 3] 3 5 0 "boom" (by decide) (fun i _ => rfl) rfl
  refine ⟨h.1, ?_, ?_⟩
  · rw [h.2.1]; decide
  · rw [h.2.2.1]; decide

theorem runAttempt_of_missingEtag {a : AttemptResult}
    (h : attemptMissingEtag a = true) :
    runAttempt a = .fail "No ETag found in response headers" := by
  cases a with
  | urlError msg => simp [attemptMissingEtag] at h
  | curlRun lines code out =>
    simp [attemptMissingEtag] at h
    simp [runAttempt, h.1, h.2]

/-- C7: an attempt whose response has no ETag header is treated exactly like
    a transient failure: it is retried with backoff (a later good attempt
    succeeds normally), and only when every attempt lacks the ETag does the
    chunk fail, after the last attempt, with the protocol-violation cause. -/
theorem missing_etag_retried_not_instantly_fatal
    (hashFn : List Nat → String) (attempts : Nat → AttemptResult)
    (data : List Nat) (n m before k : Nat) (e : String) :
    ((∀ i, i < k → attemptMissingEtag (attempts i) = true) → k < m →
      runAttempt (attempts k) = .ok e →
      (uploadSingleChunk hashFn attempts data n m before).outcome = .etag e ∧
      (uploadSingleChunk hashFn attempts data n m before).delays
        = (List.range k).map (fun i => 2 ^ i) ∧
      (uploadSingleChunk hashFn attempts data n m before).attemptsMade
        = k + 1) ∧
    ((∀ i, i < m → attemptMissingEtag (attempts i) = true) → 0 < m →
      (uploadSingleChunk hashFn attempts data n m before).outcome
        = .failed (chunkFailLog n m "No ETag found in response headers")
            (chunkFailRaise "No ETag found in response headers")) := by
  constructor
  · intro hmiss hkm hok
    have key := chunkLoop_ok_after (hashFn data) n m data.length before
      attempts e k 0 (by omega)
      (fun i _ h2 =>
        attemptFails_of_fail (runAttempt_of_missingEtag (hmiss i (by omega))))
      (by simpa using hok)
    rw [Nat.sub_zero, ← List.range_eq_range'] at key
    unfold uploadSingleChunk
    exact ⟨key.1, key.2.1.trans (by rw [List.range_eq_range']), key.2.2⟩
  · intro hmiss hm
    have key := chunkLoop_all_fail (hashFn data) n m data.length before
      attempts "No ETag found in response headers" (m - 1) 0 (by omega)
      (fun i _ h2 =>
        attemptFails_of_fail (runAttempt_of_missingEtag (hmiss i h2)))
      (runAttempt_of_missingEtag (hmiss (m - 1) (by omega)))
    rw [Nat.sub_zero, ← List.range_eq_range'] at key
    unfold uploadSingleChunk
    exact key.1

/-- Witness for C7: attempt 0 returns headers without an ETag, attempt 1
    returns one; the chunk succeeds on attempt 1 after one backoff sleep. -/
theorem missing_etag_retried_not_instantly_fatal_witness :
    (uploadSingleChunk hashLen attemptsNoEtagThenOk [9] 2 5 0).outcome
        = .etag "xyz" ∧
    (uploadSingleChunk hashLen attemptsNoEtagThenOk [9] 2 5 0).delays = [1] ∧
    (uploadSingleChunk hashLen attemptsNoEtagThenOk [9] 2 5 0).attemptsMade
        = 2 := by
  have h := (missing_etag_retried_not_instantly_fatal hashLen
      attemptsNoEtagThenOk [9] 2 5 0 1 "xyz").1
    (fun i hi => by
      have : i = 0 := by omega
      subst this
      decide)
    (by omega) (by decide)
  exact ⟨h.1, h.2.1.trans (by decide), h.2.2⟩

/-- C8: the content hash submitted with every attempt's destination request
    is the one value computed from the chunk bytes before the first attempt,
    so a retried attempt submits exactly the hash of the first attempt. -/
theorem chunk_hash_computed_once_stable
    (hashFn : List Nat → String) (attempts : Nat → AttemptResult)
    (data : List Nat) (n m before : Nat) :
    (uploadSingleChunk hashFn attempts data n m before).hashesSent
      = List.replicate
          (uploadSingleChunk hashFn attempts data n m before).attemptsMade
          (hashFn data) :=
  chunkLoop_hashes (hashFn data) n m data.length before _ 0

/-! ### Progress snapshots: bounds and ordering -/

theorem progressBytes_le (chunkSize cnt : Nat) :
    progressBytes chunkSize cnt ≤ chunkSize :=
  min_le_right _ _

theorem emissionsFromLines_bound (before chunkSize : Nat) :
    ∀ (ls : List String) (last v : Nat),
      v ∈ emissionsFromLines before chunkSize ls last →
      before + last < v ∧ v ≤ before + chunkSize := by
  intro ls
  induction ls with
  | nil => intro last v hv; simp [emissionsFromLines] at hv
  | cons l ls ih =>
    intro last v hv
    simp only [emissionsFromLines] at hv
    by_cases h1 : 0 < countHash l
    · rw [if_pos h1] at hv
      by_cases h2 : last < progressBytes chunkSize (countHash l)
      · rw [if_pos h2] at hv
        rcases List.mem_cons.mp hv with h | h
        · subst h
          exact ⟨by omega,
            by have := progressBytes_le chunkSize (countHash l); omega⟩
        · have := ih _ v h
          exact ⟨by omega, this.2⟩
      · rw [if_neg h2] at hv
        exact ih _ v hv
    · rw [if_neg h1] at hv
      exact ih _ v hv

theorem emissionsFromLines_sorted (before chunkSize : Nat) :
    ∀ (ls : List String) (last : Nat),
      List.Pairwise (fun x y => x < y)
        (emissionsFromLines before chunkSize ls last) := by
  intro ls
  induction ls with
  | nil => intro last; simp [emissionsFromLines]
  | cons l ls ih =>
    intro last
    simp only [emissionsFromLines]
    by_cases h1 : 0 < countHash l
    · rw [if_pos h1]
      by_cases h2 : last < progressBytes chunkSize (countHash l)
      · rw [if_pos h2]
        refine List.Pairwise.cons ?_ (ih _)
        intro v hv
        exact (emissionsFromLines_bound before chunkSize ls _ v hv).1
      · rw [if_neg h2]; exact ih _
    · rw [if_neg h1]; exact ih _

theorem attemptEmissions_bound (before sz : Nat) (a : AttemptResult) :
    ∀ v ∈ attemptEmissions before sz a, before < v ∧ v ≤ before + sz := by
  intro v hv
  cases a with
  | urlError msg => simp [attemptEmissions] at hv
  | curlRun lines code out =>
    have := emissionsFromLines_bound before sz lines 0 v hv
    exact ⟨by omega, this.2⟩

theorem attemptEmissions_sorted (before sz : Nat) (a : AttemptResult) :
    List.Pairwise (fun x y => x < y) (attemptEmissions before sz a) := by
  cases a with
  | urlError msg => simp [attemptEmissions]
  | curlRun lines code out => exact emissionsFromLines_sorted before sz lines 0

theorem chunkLoop_emissions_bound (hs : String) (n m sz b : Nat) :
    ∀ (l : List AttemptResult) (retry : Nat),
      ∀ v ∈ (chunkLoop hs n m sz b l retry).emissions,
        b < v ∧ v ≤ b + sz := by
  intro l
  induction l with
  | nil => intro retry v hv; simp [chunkLoop] at hv
  | cons a rest ih =>
    intro retry v hv
    cases hra : runAttempt a with
    | ok e =>
      rw [chunkLoop_cons_ok hs n m sz b rest retry hra] at hv
      exact attemptEmissions_bound b sz a v hv
    | fail c =>
      by_cases hr : retry = m - 1
      · rw [chunkLoop_cons_fail_last hs n m sz b rest hra hr] at hv
        exact attemptEmissions_bound b sz a v hv
      · rw [chunkLoop_cons_fail_retry hs n m sz b rest hra hr] at hv
        rcases List.mem_append.mp hv with h | h
        · exact attemptEmissions_bound b sz a v h
        · exact ih (retry + 1) v h

theorem uploadSingleChunk_emissions_bound (hashFn : List Nat → String)
    (attempts : Nat → AttemptResult) (data : List Nat) (n m before : Nat) :
    ∀ v ∈ (uploadSingleChunk hashFn attempts data n m before).emissions,
      before < v ∧ v ≤ before + data.length := by
  intro v hv
  exact chunkLoop_emissions_bound _ n m data.length before _ 0 v hv

/-- When the first attempt succeeds, `upload_single_chunk` returns its ETag at
    once: one attempt, no sleeps, only that attempt's snapshots. -/
theorem uploadSingleChunk_first_ok (hashFn : List Nat → String)
    (attempts : Nat → AttemptResult) (data : List Nat) (n m before : Nat)
    (hm : 0 < m) {e : String} (h : runAttempt (attempts 0) = .ok e) :
    (uploadSingleChunk hashFn attempts data n m before).outcome = .etag e ∧
    (uploadSingleChunk hashFn attempts data n m before).emissions
      = attemptEmissions before data.length (attempts 0) := by
  unfold uploadSingleChunk
  have hm1 : m = (m - 1) + 1 := by omega
  rw [hm1, List.range_eq_range', List.range'_succ, List.map_cons,
    chunkLoop_cons_ok _ n ((m - 1) + 1) data.length before _ 0 h]
  exact ⟨rfl, rfl⟩

theorem chunkData_length (env : SessionEnv) (a : Nat) :
    (chunkData env a).length
      = min env.chunkSize (env.file.length - chunkPos env a) := by
  simp [chunkData]

theorem chunkData_ne_nil_iff (env : SessionEnv) (a : Nat) (ha : 1 ≤ a) :
    chunkData env a ≠ [] ↔ a ≤ numFileChunks env := by
  rw [← List.length_pos_iff_ne_nil, chunkData_length]
  unfold numFileChunks chunkPos
  by_cases hcs : env.chunkSize = 0
  · simp [hcs]; omega
  · rw [if_neg hcs, Nat.le_div_iff_mul_le (by omega)]
    have h1 : a * env.chunkSize = (a - 1) * env.chunkSize + env.chunkSize := by
      cases a with
      | zero => omega
      | succ a' => simp [Nat.succ_mul]
    rw [h1]
    have key : ∀ X L cs : Nat, 0 < cs →
        (0 < min cs (L - min X L) ↔ X + cs ≤ L + cs - 1) := by
      intro X L cs hc
      omega
    exact key _ _ _ (by omega)

theorem chunkPos_succ (env : SessionEnv) (a : Nat) (ha : 1 ≤ a) :
    chunkPos env a + (chunkData env a).length = chunkPos env (a + 1) := by
  rw [chunkData_length]
  unfold chunkPos
  have h1 : (a + 1 - 1) * env.chunkSize
      = (a - 1) * env.chunkSize + env.chunkSize := by
    cases a with
    | zero => omega
    | succ a' => simp [Nat.succ_mul]
  rw [h1]
  have key : ∀ X L cs : Nat, min X L + min cs (L - min X L) = min (X + cs) L := by
    intro X L cs
    omega
  exact key _ _ _

/-! ### Properties of the orchestrator loop -/

theorem archiveLoop_nil (env : SessionEnv) (pos : Nat) :
    archiveLoop env [] pos
      = { attempted := [], records := [], emissions := [], err := none } :=
  rfl

theorem archiveLoop_cons_break (env : SessionEnv) (n : Nat)
    (rest : List Nat) (pos : Nat)
    (hd : (env.file.drop pos).take env.chunkSize = []) :
    archiveLoop env (n :: rest) pos
      = { attempted := [], records := [], emissions := [], err := none } := by
  simp [archiveLoop, hd]

theorem archiveLoop_cons_failed (env : SessionEnv) (n : Nat)
    (rest : List Nat) (pos : Nat) {lg rm : String}
    (hd : ¬ (env.file.drop pos).take env.chunkSize = [])
    (ho : (uploadSingleChunk env.hashFn (env.chunkAttempts n)
        ((env.file.drop pos).take env.chunkSize) n 5 pos).outcome
        = .failed lg rm) :
    archiveLoop env (n :: rest) pos
      = { attempted := [n], records := [],
          emissions := (uploadSingleChunk env.hashFn (env.chunkAttempts n)
            ((env.file.drop pos).take env.chunkSize) n 5 pos).emissions,
          err := some rm } := by
  simp only [archiveLoop, if_neg hd]
  rw [ho]

theorem archiveLoop_cons_etag (env : SessionEnv) (n : Nat)
    (rest : List Nat) (pos : Nat) {e : String}
    (hd : ¬ (env.file.drop pos).take env.chunkSize = [])
    (ho : (uploadSingleChunk env.hashFn (env.chunkAttempts n)
        ((env.file.drop pos).take env.chunkSize) n 5 pos).outcome = .etag e) :
    archiveLoop env (n :: rest) pos
      = { attempted := n :: (archiveLoop env rest
            (pos + ((env.file.drop pos).take env.chunkSize).length)).attempted,
          records := (n, some e) :: (archiveLoop env rest
            (pos + ((env.file.drop pos).take env.chunkSize).length)).records,
          emissions := (uploadSingleChunk env.hashFn (env.chunkAttempts n)
              ((env.file.drop pos).take env.chunkSize) n 5 pos).emissions
            ++ (pos + ((env.file.drop pos).take env.chunkSize).length)
              :: (archiveLoop env rest
                (pos + ((env.file.drop pos).take env.chunkSize).length)).emissions,
          err := (archiveLoop env rest
            (pos + ((env.file.drop pos).take env.chunkSize).length)).err } := by
  simp only [archiveLoop, if_neg hd]
  rw [ho]

theorem archiveLoop_emissions_bound (env : SessionEnv) :
    ∀ (ns : List Nat) (pos : Nat),
      ∀ v ∈ (archiveLoop env ns pos).emissions,
        pos < v ∧ v ≤ env.file.length := by
  intro ns
  induction ns with
  | nil => intro pos v hv; simp [archiveLoop_nil] at hv
  | cons n rest ih =>
    intro pos v hv
    by_cases hd : (env.file.drop pos).take env.chunkSize = []
    · rw [archiveLoop_cons_break env n rest pos hd] at hv
      simp at hv
    · have hlen : ((env.file.drop pos).take env.chunkSize).length
          = min env.chunkSize (env.file.length - pos) := by simp
      have hple : pos + ((env.file.drop pos).take env.chunkSize).length
          ≤ env.file.length := by
        rw [hlen]
        have hpos : pos < env.file.length := by
          by_contra hcon
          apply hd
          have : env.file.drop pos = [] := by
            rw [List.drop_eq_nil_iff]
            omega
          rw [this, List.take_nil]
        omega
      have hdlen : 0 < ((env.file.drop pos).take env.chunkSize).length :=
        List.length_pos_iff_ne_nil.mpr hd
      cases ho : (uploadSingleChunk env.hashFn (env.chunkAttempts n)
          ((env.file.drop pos).take env.chunkSize) n 5 pos).outcome with
      | failed lg rm =>
        rw [archiveLoop_cons_failed env n rest pos hd ho] at hv
        have := uploadSingleChunk_emissions_bound env.hashFn
          (env.chunkAttempts n) _ n 5 pos v hv
        exact ⟨this.1, by omega⟩
      | etag e =>
        rw [archiveLoop_cons_etag env n rest pos hd ho] at hv
        rcases List.mem_append.mp hv with h | h
        · have := uploadSingleChunk_emissions_bound env.hashFn
            (env.chunkAttempts n) _ n 5 pos v h
          exact ⟨this.1, by omega⟩
        · rcases List.mem_cons.mp h with h' | h'
          · subst h'
            exact ⟨by omega, hple⟩
          · have := ih _ v h'
            exact ⟨by omega, this.2⟩
      | pyNone =>
        exact absurd ho (uploadSingleChunk_ne_pyNone env.hashFn
          (env.chunkAttempts n) _ n 5 pos (by omega))

theorem archiveLoop_emissions_sorted (env : SessionEnv)
    (hfo : firstAttemptOk env) :
    ∀ (ns : List Nat) (pos : Nat),
      List.Pairwise (fun x y => x ≤ y) ((archiveLoop env ns pos).emissions) := by
  intro ns
  induction ns with
  | nil => intro pos; simp [archiveLoop_nil]
  | cons n rest ih =>
    intro pos
    by_cases hd : (env.file.drop pos).take env.chunkSize = []
    · rw [archiveLoop_cons_break env n rest pos hd]
      simp
    · obtain ⟨e, he⟩ := attemptOk_of_not_fails (hfo n)
      have hfirst := uploadSingleChunk_first_ok env.hashFn (env.chunkAttempts n)
        ((env.file.drop pos).take env.chunkSize) n 5 pos (by omega) he
      rw [archiveLoop_cons_etag env n rest pos hd hfirst.1]
      rw [List.pairwise_append]
      refine ⟨?_, ?_, ?_⟩
      · rw [hfirst.2]
        exact (attemptEmissions_sorted pos _ _).imp (fun h => Nat.le_of_lt h)
      · refine List.Pairwise.cons ?_ (ih _)
        intro y hy
        exact Nat.le_of_lt (archiveLoop_emissions_bound env rest _ y hy).1
      · intro x hx y hy
        have hxb := uploadSingleChunk_emissions_bound env.hashFn
          (env.chunkAttempts n) _ n 5 pos x hx
        rcases List.mem_cons.mp hy with h' | h'
        · omega
        · have hyb := (archiveLoop_emissions_bound env rest _ y h').1
          omega

theorem uploadArchive_fields (env : SessionEnv) :
    (uploadArchive env).attempted
        = (archiveLoop env (List.range' 1 env.totalChunks) 0).attempted ∧
    (uploadArchive env).records
        = (archiveLoop env (List.range' 1 env.totalChunks) 0).records ∧
    (uploadArchive env).emissions
        = (archiveLoop env (List.range' 1 env.totalChunks) 0).emissions ∧
    ((uploadArchive env).completeCalled = true ↔
        (archiveLoop env (List.range' 1 env.totalChunks) 0).err = none) := by
  unfold uploadArchive completionStep
  cases herr : (archiveLoop env (List.range' 1 env.totalChunks) 0).err with
  | some e => simp [herr]
  | none =>
    simp only [herr]
    split_ifs <;> simp

theorem chunkOk_of_etag {env : SessionEnv} {a : Nat} {e : String}
    (h : (chunkResult env a).outcome = .etag e) : chunkOk env a = true := by
  unfold chunkOk
  rw [h]

theorem chunkOk_of_failed {env : SessionEnv} {a : Nat} {lg rm : String}
    (h : (chunkResult env a).outcome = .failed lg rm) :
    chunkOk env a = false := by
  unfold chunkOk
  rw [h]

theorem chunkResult_ne_pyNone (env : SessionEnv) (a : Nat) :
    (chunkResult env a).outcome ≠ .pyNone :=
  uploadSingleChunk_ne_pyNone env.hashFn (env.chunkAttempts a)
    (chunkData env a) a 5 (chunkPos env a) (by omega)

theorem chunkPos_one (env : SessionEnv) : chunkPos env 1 = 0 := by
  simp [chunkPos]

/-- Characterisation of the chunk loop started at chunk `a` with the file
    positioned accordingly: the loop raises no error iff every chunk in the
    processed range succeeds; on success the records are exactly the
    contiguous range of processed chunk numbers; a failing chunk is the last
    one attempted and leaves an error; and every record carries an ETag. -/
theorem archiveLoop_char (env : SessionEnv) :
    ∀ (k a : Nat), 1 ≤ a →
      ((archiveLoop env (List.range' a k) (chunkPos env a)).err = none ↔
        ∀ n ∈ List.range' a (min k (numFileChunks env + 1 - a)),
          chunkOk env n = true) ∧
      ((archiveLoop env (List.range' a k) (chunkPos env a)).err = none →
        (archiveLoop env (List.range' a k) (chunkPos env a)).records.map
            Prod.fst
          = List.range' a (min k (numFileChunks env + 1 - a))) ∧
      (∀ n ∈ (archiveLoop env (List.range' a k) (chunkPos env a)).attempted,
        chunkOk env n = false →
          (archiveLoop env (List.range' a k) (chunkPos env a)).attempted
              = List.range' a (n + 1 - a) ∧
          (archiveLoop env (List.range' a k) (chunkPos env a)).err ≠ none ∧
          (archiveLoop env (List.range' a k) (chunkPos env a)).records.map
              Prod.fst = List.range' a (n - a)) ∧
      (∀ p ∈ (archiveLoop env (List.range' a k) (chunkPos env a)).records,
        p.2.isSome = true) := by
  intro k
  induction k with
  | zero =>
    intro a ha
    simp [archiveLoop_nil]
  | succ k ih =>
    intro a ha
    rw [List.range'_succ]
    by_cases hd : chunkData env a = []
    · have hgt : ¬ a ≤ numFileChunks env := fun h =>
        (chunkData_ne_nil_iff env a ha).mpr h hd
      have hmin : min (k + 1) (numFileChunks env + 1 - a) = 0 := by omega
      have hd' : (env.file.drop (chunkPos env a)).take env.chunkSize = [] := hd
      rw [archiveLoop_cons_break env a _ _ hd', hmin]
      simp
    · have hle : a ≤ numFileChunks env := (chunkData_ne_nil_iff env a ha).mp hd
      have hd' : ¬ (env.file.drop (chunkPos env a)).take env.chunkSize = [] := hd
      have hpos :
          chunkPos env a
              + ((env.file.drop (chunkPos env a)).take env.chunkSize).length
            = chunkPos env (a + 1) := chunkPos_succ env a ha
      have hmin : min (k + 1) (numFileChunks env + 1 - a)
          = min k (numFileChunks env + 1 - (a + 1)) + 1 := by omega
      rw [hmin]
      cases hco : (chunkResult env a).outcome with
      | pyNone => exact absurd hco (chunkResult_ne_pyNone env a)
      | failed lg rm =>
        have hco' : (uploadSingleChunk env.hashFn (env.chunkAttempts a)
            ((env.file.drop (chunkPos env a)).take env.chunkSize) a 5
            (chunkPos env a)).outcome = .failed lg rm := hco
        rw [archiveLoop_cons_failed env a _ _ hd' hco']
        have hbad : chunkOk env a = false := chunkOk_of_failed hco
        refine ⟨?_, ?_, ?_, ?_⟩
        · constructor
          · intro hcon; exact absurd hcon (by simp)
          · intro hall
            have := hall a (by
              rw [List.mem_range'_1]
              omega)
            rw [hbad] at this
            exact absurd this (by simp)
        · intro hcon; exact absurd hcon (by simp)
        · intro n hn _
          have hna : n = a := by simpa using hn
          subst hna
          refine ⟨?_, by simp, ?_⟩
          · rw [show n + 1 - n = 1 by omega, List.range'_one]
          · rw [show n - n = 0 by omega, List.range'_zero]
            simp
        · intro p hp; simp at hp
      | etag e =>
        have hco' : (uploadSingleChunk env.hashFn (env.chunkAttempts a)
            ((env.file.drop (chunkPos env a)).take env.chunkSize) a 5
            (chunkPos env a)).outcome = .etag e := hco
        rw [archiveLoop_cons_etag env a _ _ hd' hco']
        rw [hpos]
        have hok : chunkOk env a = true := chunkOk_of_etag hco
        have iha := ih (a + 1) (by omega)
        refine ⟨?_, ?_, ?_, ?_⟩
        · simp only [List.range'_succ, List.forall_mem_cons]
          rw [← iha.1]
          simp [hok]
        · intro herr
          simp only [List.map_cons, List.range'_succ]
          simp only [] at herr
          rw [iha.2.1 herr]
        · intro n hn hfalse
          rcases List.mem_cons.mp hn with h' | h'
          · subst h'
            rw [hok] at hfalse
            exact absurd hfalse (by simp)
          · have h3 := iha.2.2.1 n h' hfalse
            have hna : a + 1 ≤ n := by
              have := h3.1 ▸ h'
              exact (List.mem_range'_1.mp this).1
            refine ⟨?_, h3.2.1, ?_⟩
            · rw [show n + 1 - a = (n - a) + 1 by omega, List.range'_succ]
              rw [show n + 1 - (a + 1) = n - a from by omega] at h3
              rw [h3.1]
            · simp only [List.map_cons]
              rw [show n - a = (n - (a + 1)) + 1 by omega, List.range'_succ]
              rw [h3.2.2]
        · intro p hp
          rcases List.mem_cons.mp hp with h' | h'
          · subst h'; rfl
          · exact iha.2.2.2 p h'

/-- C1: `complete` is called iff every chunk in `1 .. total_chunks`, cut off
    where the byte source is exhausted, uploads successfully; when it is
    called, the records are exactly one per chunk number, in the contiguous
    increasing order `1, 2, ..., plannedChunks`, each carrying an ETag; and
    when some attempted chunk fails, no later chunk is ever attempted and
    `complete` is never called. -/
theorem complete_called_iff_contiguous_records (env : SessionEnv) :
    ((uploadArchive env).completeCalled = true ↔
      ∀ n ∈ List.range' 1 (plannedChunks env), chunkOk env n = true) ∧
    ((uploadArchive env).completeCalled = true →
      (uploadArchive env).records.map Prod.fst
          = List.range' 1 (plannedChunks env) ∧
      ∀ p ∈ (uploadArchive env).records, p.2.isSome = true) ∧
    (∀ n ∈ (uploadArchive env).attempted, chunkOk env n = false →
      (uploadArchive env).attempted = List.range' 1 n ∧
      (uploadArchive env).completeCalled = false) := by
  have hf := uploadArchive_fields env
  have hc := archiveLoop_char env env.totalChunks 1 le_rfl
  rw [chunkPos_one env] at hc
  rw [show numFileChunks env + 1 - 1 = numFileChunks env from by omega] at hc
  have hplan : min env.totalChunks (numFileChunks env) = plannedChunks env :=
    rfl
  rw [hplan] at hc
  refine ⟨?_, ?_, ?_⟩
  · rw [hf.2.2.2]
    exact hc.1
  · intro hcc
    have herr := hf.2.2.2.mp hcc
    refine ⟨?_, ?_⟩
    · rw [hf.2.1]
      exact hc.2.1 herr
    · intro p hp
      rw [hf.2.1] at hp
      exact hc.2.2.2 p hp
  · intro n hn hbad
    rw [hf.1] at hn
    have h3 := hc.2.2.1 n hn hbad
    refine ⟨?_, ?_⟩
    · rw [hf.1, h3.1]
      rw [show n + 1 - 1 = n from by omega]
    · rcases hcc : (uploadArchive env).completeCalled with _ | _
      · rfl
      · exact absurd (hf.2.2.2.mp hcc) h3.2.1

/-- Witness for C1: in `goodEnv` every chunk succeeds, `complete` is called,
    and the records cover chunks 1, 2, 3 in order. -/
theorem complete_called_iff_contiguous_records_witness :
    (uploadArchive goodEnv).completeCalled = true ∧
    (uploadArchive goodEnv).records.map Prod.fst = [1, 2, 3] := by
  have h := complete_called_iff_contiguous_records goodEnv
  have hcc : (uploadArchive goodEnv).completeCalled = true :=
    h.1.mpr (by decide)
  exact ⟨hcc, ((h.2.1 hcc).1).trans (by decide)⟩

/-- C3: when the chunk loop finishes and the `complete` call returns a 2xx
    transport status whose payload reports `success = false`, the orchestrator
    raises (the payload's message, not the HTTP status, decides) and the abort
    operation runs. -/
theorem complete_success_false_fatal_abort (env : SessionEnv)
    (hdone : (archiveLoop env (List.range' 1 env.totalChunks) 0).err = none)
    (hstatus : 200 ≤ env.completeStatus ∧ env.completeStatus < 300)
    (hfalse : env.completeResponse.success = some false) :
    (uploadArchive env).completeCalled = true ∧
    (uploadArchive env).outcome
      = .err ("Upload failed after all attempts: "
          ++ (env.completeResponse.message).getD "Unknown error") ∧
    (uploadArchive env).abortCalls = 1 := by
  have hraise : raiseForStatus env.completeStatus = false := by
    unfold raiseForStatus
    simp only [decide_eq_false_iff_not]
    omega
  unfold uploadArchive completionStep
  rw [hdone, hraise, hfalse]
  simp

/-- Witness for C3: a zero-chunk session whose `complete` returns HTTP 200
    with `success = false` ends in the payload-derived error with one abort
    call. -/
theorem complete_success_false_fatal_abort_witness :
    (uploadArchive envCompleteFalse).completeCalled = true ∧
    (uploadArchive envCompleteFalse).outcome
      = .err "Upload failed after all attempts: bad" ∧
    (uploadArchive envCompleteFalse).abortCalls = 1 := by
  have h := complete_success_false_fatal_abort envCompleteFalse
    (by decide) (by decide) rfl
  exact ⟨h.1, h.2.1.trans (by decide), h.2.2⟩

/-- C10: when the `complete` response carries no `success` field at all, the
    flag defaults to true: the upload is reported successful and abort is
    never called. -/
theorem complete_missing_success_defaults_true (env : SessionEnv)
    (hdone : (archiveLoop env (List.range' 1 env.totalChunks) 0).err = none)
    (hstatus : 200 ≤ env.completeStatus ∧ env.completeStatus < 300)
    (hnone : env.completeResponse.success = none) :
    (uploadArchive env).completeCalled = true ∧
    (uploadArchive env).outcome
      = .ok env.completeResponse.game_control_id
          env.completeResponse.object_key
          ((env.completeResponse.verified).getD false) ∧
    (uploadArchive env).abortCalls = 0 := by
  have hraise : raiseForStatus env.completeStatus = false := by
    unfold raiseForStatus
    simp only [decide_eq_false_iff_not]
    omega
  unfold uploadArchive completionStep
  rw [hdone, hraise, hnone]
  simp

/-- Witness for C10: a zero-chunk session whose `complete` response has no
    `success` key is reported successful, with no abort. -/
theorem complete_missing_success_defaults_true_witness :
    (uploadArchive envCompleteNoField).completeCalled = true ∧
    (uploadArchive envCompleteNoField).outcome = .ok "g" "k" false ∧
    (uploadArchive envCompleteNoField).abortCalls = 0 := by
  have h := complete_missing_success_defaults_true envCompleteNoField
    (by decide) (by decide) rfl
  exact ⟨h.1, h.2.1.trans (by decide), h.2.2⟩

theorem archiveLoop_abortOk (env : SessionEnv) (b : Bool) :
    ∀ (ns : List Nat) (pos : Nat),
      archiveLoop { env with abortOk := b } ns pos
        = archiveLoop env ns pos := by
  intro ns
  induction ns with
  | nil => intro pos; rfl
  | cons n rest ih =>
    intro pos
    simp only [archiveLoop, ih]

theorem completionStep_abort (env : SessionEnv) (lr : LoopResult) (e : String)
    (herr : (completionStep env lr).outcome = .err e) :
    (completionStep env lr).abortCalls = 1 ∧
    (completionStep env lr).abortWarned = !env.abortOk := by
  unfold completionStep at herr ⊢
  cases hlr : lr.err with
  | some msg => exact ⟨rfl, rfl⟩
  | none =>
    rw [hlr] at herr
    by_cases h1 : raiseForStatus env.completeStatus = true
    · rw [h1]
      exact ⟨rfl, rfl⟩
    · rw [Bool.not_eq_true] at h1
      rw [h1] at herr ⊢
      by_cases h2 : (env.completeResponse.success).getD true = true
      · rw [h2] at herr
        simp at herr
      · rw [Bool.not_eq_true] at h2
        rw [h2]
        exact ⟨rfl, rfl⟩

theorem completionStep_outcome_abortOk (env : SessionEnv) (b : Bool)
    (lr : LoopResult) :
    (completionStep { env with abortOk := b } lr).outcome
      = (completionStep env lr).outcome := by
  unfold completionStep
  cases hlr : lr.err with
  | some msg => rfl
  | none => split_ifs <;> rfl

theorem uploadArchive_abortOk (env : SessionEnv) (b : Bool) :
    uploadArchive { env with abortOk := b }
      = completionStep { env with abortOk := b }
          (archiveLoop env (List.range' 1 env.totalChunks) 0) := by
  unfold uploadArchive
  rw [archiveLoop_abortOk env b]

/-- C5: when the upload has failed, the abort call happens exactly once and
    its own failure is only recorded as a warning: the outcome (the original
    upload failure) is identical whether abort succeeds or fails. -/
theorem abort_failure_warn_only (env : SessionEnv) (e : String)
    (herr : (uploadArchive env).outcome = .err e) :
    (uploadArchive { env with abortOk := false }).outcome = .err e ∧
    (uploadArchive { env with abortOk := false }).abortCalls = 1 ∧
    (uploadArchive { env with abortOk := false }).abortWarned = true ∧
    (uploadArchive { env with abortOk := true }).outcome = .err e ∧
    (uploadArchive { env with abortOk := true }).abortWarned = false := by
  have hof : ∀ b : Bool,
      (uploadArchive { env with abortOk := b }).outcome = .err e := by
    intro b
    rw [uploadArchive_abortOk env b, completionStep_outcome_abortOk env b]
    exact herr
  have hfalse := completionStep_abort { env with abortOk := false }
    (archiveLoop env (List.range' 1 env.totalChunks) 0) e
    (by rw [← uploadArchive_abortOk env false]; exact hof false)
  have htrue := completionStep_abort { env with abortOk := true }
    (archiveLoop env (List.range' 1 env.totalChunks) 0) e
    (by rw [← uploadArchive_abortOk env true]; exact hof true)
  rw [← uploadArchive_abortOk env false] at hfalse
  rw [← uploadArchive_abortOk env true] at htrue
  exact ⟨hof false, hfalse.1, hfalse.2, hof true, htrue.2⟩

/-- Witness for C5: in `envCompleteFalse` with a failing abort, the original
    completion error propagates, abort runs once, and only a warning is
    recorded. -/
theorem abort_failure_warn_only_witness :
    (uploadArchive { envCompleteFalse with abortOk := false }).outcome
        = .err "Upload failed after all attempts: bad" ∧
    (uploadArchive { envCompleteFalse with abortOk := false }).abortCalls
        = 1 ∧
    (uploadArchive { envCompleteFalse with abortOk := false }).abortWarned
        = true := by
  have h := abort_failure_warn_only envCompleteFalse
    "Upload failed after all attempts: bad" (by decide)
  exact ⟨h.1, h.2.1, h.2.2.1⟩

/-- C4 counterexample: in `envRetryRegress` the session's snapshots report
    `bytes_uploaded` values 90, 2, 100 in that order — the snapshot emitted
    during the retried attempt reports fewer bytes than the snapshot from the
    failed first attempt, so the sequence is not monotonically
    non-decreasing. -/
theorem progress_monotone_counterexample :
    (uploadArchive envRetryRegress).emissions = [90, 2, 100] ∧
    ¬ List.Pairwise (fun x y => x ≤ y)
        ((uploadArchive envRetryRegress).emissions) := by
  constructor
  · decide
  · decide

/-- C4 amended: every emitted `bytes_uploaded` is bounded by `total_bytes`
    (the file length), snapshots within one attempt are monotone, and the
    whole session's snapshot sequence is monotone provided every chunk
    succeeds on its first attempt; a retried attempt restarts its chunk's
    progress from the chunk start, which is the only source of regressions. -/
theorem progress_bound_and_monotone_amended :
    (∀ env : SessionEnv,
      ∀ v ∈ (uploadArchive env).emissions, v ≤ env.file.length) ∧
    (∀ (before sz : Nat) (a : AttemptResult),
      List.Pairwise (fun x y => x ≤ y) (attemptEmissions before sz a)) ∧
    (∀ env : SessionEnv, firstAttemptOk env →
      List.Pairwise (fun x y => x ≤ y) ((uploadArchive env).emissions)) := by
  refine ⟨?_, ?_, ?_⟩
  · intro env v hv
    rw [(uploadArchive_fields env).2.2.1] at hv
    exact (archiveLoop_emissions_bound env _ 0 v hv).2
  · intro before sz a
    exact (attemptEmissions_sorted before sz a).imp (fun h => Nat.le_of_lt h)
  · intro env hfo
    rw [(uploadArchive_fields env).2.2.1]
    exact archiveLoop_emissions_sorted env hfo _ 0

/-- Witness for C4 (amended): in `goodEnv` every chunk succeeds at once and
    the snapshot sequence is monotone. -/
theorem progress_bound_and_monotone_amended_witness :
    List.Pairwise (fun x y => x ≤ y) ((uploadArchive goodEnv).emissions) :=
  progress_bound_and_monotone_amended.2.2 goodEnv (fun _ => rfl)

/-! ### The progress reporter -/

/-- C6: `emit_upload_progress` is total (it is a plain function, with every
    division guarded), and for all inputs: the speed is
    `bytes_uploaded / elapsed` when `elapsed > 0` and `0` otherwise; the
    percentage equals `min (bytes_uploaded / total_bytes * 100) 100` when
    `total_bytes > 0` and `0` otherwise — hence always within `[0, 100]` —
    and the ETA is `(total_bytes - bytes_uploaded) / speed` when `speed > 0`
    and `0` otherwise. -/
theorem emit_progress_total_guarded_formulas (b t c tc : ℕ) (elapsed : ℚ) :
    speedBps b elapsed = (if 0 < elapsed then (b : ℚ) / elapsed else 0) ∧
    (emitUploadProgress b elapsed t c tc).percent
      = (if 0 < t then min ((b : ℚ) / t * 100) 100 else 0) ∧
    0 ≤ (emitUploadProgress b elapsed t c tc).percent ∧
    (emitUploadProgress b elapsed t c tc).percent ≤ 100 ∧
    (emitUploadProgress b elapsed t c tc).eta_seconds
      = (if 0 < speedBps b elapsed
          then ((t : ℚ) - b) / speedBps b elapsed else 0) ∧
    (emitUploadProgress b elapsed t c tc).speed_mbps
      = (if 0 < speedBps b elapsed
          then speedBps b elapsed / (1024 * 1024) else 0) := by
  have hp : (emitUploadProgress b elapsed t c tc).percent
      = (if 0 < t then min ((b : ℚ) / t * 100) 100 else 0) := rfl
  refine ⟨rfl, rfl, ?_, ?_, rfl, rfl⟩
  · rw [hp]
    by_cases ht : 0 < t
    · rw [if_pos ht]
      exact le_min (by positivity) (by norm_num)
    · rw [if_neg ht]
  · rw [hp]
    by_cases ht : 0 < t
    · rw [if_pos ht]
      exact min_le_right _ _
    · rw [if_neg ht]
      norm_num

/-- C9 counterexample: the emitted JSON object has no `phase` key (nor
    `action`, `speed_bytes_per_sec` or `timestamp`), so a snapshot does not
    contain the fields the claim lists. -/
theorem progress_json_fields_counterexample :
    "phase" ∉ (progressJson (emitUploadProgress 0 0 0 0 0)).map Prod.fst ∧
    "action" ∉ (progressJson (emitUploadProgress 0 0 0 0 0)).map Prod.fst ∧
    "speed_bytes_per_sec"
        ∉ (progressJson (emitUploadProgress 0 0 0 0 0)).map Prod.fst ∧
    "timestamp" ∉ (progressJson (emitUploadProgress 0 0 0 0 0)).map Prod.fst := by
  refine ⟨?_, ?_, ?_, ?_⟩ <;> decide

/-- C9 amended: every emitted snapshot is a JSON object with exactly the keys
    `bytes_uploaded, total_bytes, percent, speed_mbps, eta_seconds,
    current_chunk, total_chunks`, in that order; there is no `phase`,
    `action`, `speed_bytes_per_sec` or `timestamp` field — the speed is
    reported under `speed_mbps`. -/
theorem progress_json_fields_amended (b t c tc : ℕ) (elapsed : ℚ) :
    (progressJson (emitUploadProgress b elapsed t c tc)).map Prod.fst
      = ["bytes_uploaded", "total_bytes", "percent", "speed_mbps",
         "eta_seconds", "current_chunk", "total_chunks"] ∧
    "phase" ∉ (progressJson (emitUploadProgress b elapsed t c tc)).map
        Prod.fst ∧
    "action" ∉ (progressJson (emitUploadProgress b elapsed t c tc)).map
        Prod.fst ∧
    "speed_bytes_per_sec"
        ∉ (progressJson (emitUploadProgress b elapsed t c tc)).map Prod.fst ∧
    "timestamp" ∉ (progressJson (emitUploadProgress b elapsed t c tc)).map
        Prod.fst := by
  have hkeys : (progressJson (emitUploadProgress b elapsed t c tc)).map
      Prod.fst
      = ["bytes_uploaded", "total_bytes", "percent", "speed_mbps",
         "eta_seconds", "current_chunk", "total_chunks"] := rfl
  refine ⟨hkeys, ?_, ?_, ?_, ?_⟩ <;> rw [hkeys] <;> decide

/-- Witness for C9 (amended): the key list of a concrete emission. -/
theorem progress_json_fields_amended_witness :
    (progressJson (emitUploadProgress 3 1 10 1 2)).map Prod.fst
      = ["bytes_uploaded", "total_bytes", "percent", "speed_mbps",
         "eta_seconds", "current_chunk", "total_chunks"] :=
  (progress_json_fields_amended 3 1 10 1 2).1

end Uploader
